import Mathlib

/-!
Verification development for the validator-submitter repository
(src/deposit.py, src/populate_successful.py).

The Python sources are shallowly embedded below:
  * byte-level hex decoding (`bytes.fromhex`) as `bytesFromHex`;
  * `validate_deposit_data` over deposit records whose four fields may be
    absent (`Option String` models a missing dictionary key);
  * the fee estimator `get_gas_price`, whose upstream `eth_feeHistory`
    call is an `Except` value (error = any raised exception);
  * the retry loop `send_transaction`, where the outcome of each raw-send
    attempt is an oracle list of Booleans (true = accepted by the node);
  * the persisted ledger file `successful_deposits.json` as a `DiskState`
    that also records the intermediate on-disk state the in-place
    truncating write passes through;
  * the top-level batch loop of deposit.py as a step function
    `stepRecord` plus a driver `runBatch` producing a trace of events;
  * the backfill script populate_successful.py as `populate_main`.

Machine integers are modelled as `Nat`. Python computes the escalated fee
as `int(fee * 1.5)` and the mean priority fee with float division; for the
wei-denominated values involved (far below 2^53) these agree with the exact
integer arithmetic `3 * fee / 2` and floor division used here.
-/

/-- True for the ASCII hex digits 0-9, a-f, A-F. -/
def isHexDigitChar (c : Char) : Bool :=
  c.isDigit || decide (97 ≤ c.toNat ∧ c.toNat ≤ 102) || decide (65 ≤ c.toNat ∧ c.toNat ≤ 70)

/-- Numeric value of a hex digit. -/
def hexVal (c : Char) : Nat :=
  if c.isDigit then c.toNat - 48
  else if 97 ≤ c.toNat then c.toNat - 87
  else c.toNat - 55

/-- Embedding of Python `bytes.fromhex`: whitespace may separate byte pairs,
each byte is exactly two hex digits, `none` models the `ValueError` raised
on malformed input. No length restriction is imposed. -/
def bytesFromHex : List Char → Option (List Nat)
  | [] => some []
  | c :: cs =>
    if c.isWhitespace then bytesFromHex cs
    else
      match cs with
      | [] => none
      | d :: rest =>
        if isHexDigitChar c && isHexDigitChar d then
          match bytesFromHex rest with
          | some bs => some ((16 * hexVal c + hexVal d) :: bs)
          | none => none
        else none

/-- A deposit-data entry: each of the four JSON fields may be missing
(`none` models an absent dictionary key). -/
structure DepositEntry where
  pubkey : Option String
  withdrawal_credentials : Option String
  signature : Option String
  deposit_data_root : Option String
deriving DecidableEq

/-- A field passes the per-field check of `validate_deposit_data`:
present and `bytes.fromhex` succeeds on it. -/
def fieldIsValidHex (f : Option String) : Bool :=
  match f with
  | none => false
  | some s => (bytesFromHex s.toList).isSome

/-- Embedding of `validate_deposit_data` (deposit.py lines 62-75): each of
the four required fields must be present and decode as hex; the fields are
checked in source order and the first failure yields `false`. The source
performs no length check on the decoded bytes. -/
def validate_deposit_data (e : DepositEntry) : Bool :=
  fieldIsValidHex e.pubkey && fieldIsValidHex e.withdrawal_credentials &&
    fieldIsValidHex e.signature && fieldIsValidHex e.deposit_data_root

/-- The strict check the ABI encoder applies to the `bytes32` argument
(deposit.py lines 192-195): `from eth_abi import encode` requires eth-abi
version 4 or later, whose `encode` raises unless a `bytes32` value is
exactly 32 bytes, so the call succeeds only when the decoded
`deposit_data_root` has length 32. The three `bytes` arguments are
dynamic-length and are never rejected, whatever their length. -/
def rootIsBytes32 (f : Option String) : Bool :=
  match f with
  | none => false
  | some s =>
    match bytesFromHex s.toList with
    | none => false
    | some bs => bs.length == 32

/-- A 64-hex-character string decoding to exactly 32 bytes, used as a
well-formed `deposit_data_root` in concrete inputs. -/
def root32 : String :=
  "0000000000000000000000000000000000000000000000000000000000000000"

/-- Wei value of `n` gwei (`Web3.to_wei(n, "gwei")`). -/
def gwei (n : Nat) : Nat := n * 10 ^ 9

/-- Result of the upstream `eth_feeHistory` RPC call as deposit.py reads it:
the per-block base fees and, per block, the rewards at the requested
percentiles (index 0 holds the 50th percentile). -/
structure FeeHistory where
  baseFeePerGas : List Nat
  reward : List (List Nat)
deriving DecidableEq

/-- Embedding of `get_gas_price` (deposit.py lines 94-118). The argument is
the outcome of the `eth_feeHistory` call; `Except.error` models any raised
exception. Inside the `try` block, indexing `baseFeePerGas[-1]` on an empty
list raises and is caught by the same handler, so that case also yields the
50 gwei fallback. `priority_fees` keeps the first percentile entry of each
non-empty reward row; their mean (float division in the source, floor
division here) falls back to 2 gwei when no rows exist. -/
def get_gas_price (o : Except Unit FeeHistory) : Nat :=
  match o with
  | Except.error _ => gwei 50
  | Except.ok fh =>
    match fh.baseFeePerGas.getLast? with
    | none => gwei 50
    | some base_fee =>
      let priority_fees := fh.reward.filterMap List.head?
      let median_priority_fee :=
        if priority_fees.length ≠ 0 then priority_fees.sum / priority_fees.length
        else gwei 2
      base_fee + median_priority_fee

/-- Fee escalation applied between send retries (deposit.py line 133):
`int(tx["maxFeePerGas"] * 1.5)`, exact integer form `3 * fee / 2`. -/
def escalateFee (fee : Nat) : Nat := 3 * fee / 2

/-- Embedding of `send_transaction` (deposit.py lines 120-139). The first
argument is the number of attempts remaining (`max_retries` at the top
call), the second the current `maxFeePerGas`, the third an oracle giving
each raw-send attempt's outcome (`true` = the node accepted it, `false` =
an exception; a missing entry counts as an exception). The result pairs
the list of `maxFeePerGas` values actually used, one per attempt made,
with `true` iff some attempt succeeded; `false` models the final raise. -/
def send_transaction : Nat → Nat → List Bool → List Nat × Bool
  | 0, _, _ => ([], false)
  | n + 1, fee, outs =>
    if outs.headD false then ([fee], true)
    else if n = 0 then ([fee], false)
    else
      let r := send_transaction n (escalateFee fee) outs.tail
      (fee :: r.1, r.2)

/-- On-disk state of `successful_deposits.json`. `absent` = no file,
`interrupted` = an interrupted in-place write left the file empty or with
a JSON fragment (undecodable), `wellFormed s` = a complete JSON list whose
entries form the set `s` (order is not meaningful, duplicates collapse). -/
inductive DiskState where
  | absent
  | interrupted
  | wellFormed (entries : Finset String)
deriving DecidableEq

/-- Embedding of `load_successful_deposits` (deposit.py lines 36-44 and
populate_successful.py lines 11-19): fail-soft, the empty set on a missing
file or on any decode exception. -/
def load_successful_deposits : DiskState → Finset String
  | DiskState.absent => ∅
  | DiskState.interrupted => ∅
  | DiskState.wellFormed s => s

/-- Final on-disk state after `save_successful_deposit pk` (deposit.py
lines 46-60): load the current set, insert the new pubkey, rewrite the
file with the union. -/
def save_successful_deposit (disk : DiskState) (pk : String) : DiskState :=
  DiskState.wellFormed (insert pk (load_successful_deposits disk))

/-- The sequence of on-disk states `save_successful_deposit` drives the
file through: `open(file, "w")` first truncates the existing file in
place (an interruption at that point leaves an empty, undecodable file),
then `json.dump` writes the merged list. There is no temporary file and
no rename. -/
def saveDiskStates (disk : DiskState) (pk : String) : List DiskState :=
  [DiskState.interrupted, save_successful_deposit disk pk]

/-- Final on-disk state after `save_successful_deposits pks`
(populate_successful.py lines 21-37): load, union with the new pubkeys,
rewrite the file. -/
def save_successful_deposits (disk : DiskState) (pks : List String) : DiskState :=
  DiskState.wellFormed (load_successful_deposits disk ∪ pks.toFinset)

instance : DecidableEq (Except Unit FeeHistory) := fun a b =>
  match a, b with
  | Except.error (), Except.error () => isTrue rfl
  | Except.ok x, Except.ok y =>
    if h : x = y then isTrue (by rw [h]) else isFalse (fun hc => h (Except.ok.inj hc))
  | Except.error (), Except.ok _ => isFalse (fun hc => Except.noConfusion hc)
  | Except.ok _, Except.error () => isFalse (fun hc => Except.noConfusion hc)

/-- Per-record chain environment: everything the chain decides while the
main loop of deposit.py processes one record. `estimated_gas = none`
models `estimate_gas` raising; `sendOutcomes` is the raw-send oracle fed
to `send_transaction`; `confirmed` is the result of
`wait_for_transaction` (`false` covers failed, reverted and timed out). -/
structure RecordEnv where
  feeHistory : Except Unit FeeHistory
  estimated_gas : Option Nat
  sendOutcomes : List Bool
  confirmed : Bool
deriving DecidableEq

/-- In-run mutable state of the batch loop: the persisted ledger file and
`processed_count`. The in-memory `successful_deposits` set is loaded once
before the loop and never mutated by it, so it is a fixed parameter of
`stepRecord` and `runBatch`, not part of this state. -/
structure BatchState where
  disk : DiskState
  processed_count : Nat
deriving DecidableEq

/-- What the main loop does with one record. `abortKeyError` models the
uncaught exception raised by `entry["pubkey"]` when the field is missing
(deposit.py line 171, outside every try block): the process dies with a
traceback. `halt` is the `break` on exhausted capacity. `skipEncodeError`
models the strict ABI encoder raising on a `deposit_data_root` that is
not exactly 32 bytes, caught by the outer per-record handler (line 244):
the record is skipped before any estimation or send. `attempted` carries
the `maxFeePerGas` of every raw-send attempt made, whether some send was
accepted, and whether the transaction confirmed. -/
inductive RecordEvent where
  | skipAlreadyDone
  | halt
  | abortKeyError
  | skipInvalid
  | skipEncodeError
  | skipGasEstimation
  | attempted (fees : List Nat) (sendOk : Bool) (confirmedOk : Bool)
deriving DecidableEq

/-- An event that represents a submission attempt (something was signed
and offered to the node). -/
def RecordEvent.isSubmission : RecordEvent → Bool
  | RecordEvent.attempted _ _ _ => true
  | _ => false

/-- Embedding of one iteration of the main loop of deposit.py
(lines 167-246), in source order: the ledger-membership check on
`entry["pubkey"]` (which raises if the field is missing), the capacity
`break`, `validate_deposit_data`, then inside the outer try: hex
decoding, the ABI `encode` call — whose strict `bytes32` check raises on
a root that is not 32 bytes, caught by the outer except which skips the
record — nonce fetch, `get_gas_price`, the inner-try `estimate_gas`
(failure → `continue`), `send_transaction` (all retries exhausted →
caught → `continue`), `wait_for_transaction`, and on confirmation
`save_successful_deposit` plus `processed_count += 1`. -/
def stepRecord (successful_deposits : Finset String) (maxValidators : Nat)
    (st : BatchState) (entry : DepositEntry) (env : RecordEnv) :
    RecordEvent × BatchState :=
  match entry.pubkey with
  | none => (RecordEvent.abortKeyError, st)
  | some pk =>
    if pk ∈ successful_deposits then (RecordEvent.skipAlreadyDone, st)
    else if maxValidators ≤ st.processed_count then (RecordEvent.halt, st)
    else if validate_deposit_data entry = false then (RecordEvent.skipInvalid, st)
    else if rootIsBytes32 entry.deposit_data_root = false then
      (RecordEvent.skipEncodeError, st)
    else
      match env.estimated_gas with
      | none => (RecordEvent.skipGasEstimation, st)
      | some _ =>
        let max_fee_per_gas := get_gas_price env.feeHistory
        let r := send_transaction 3 max_fee_per_gas env.sendOutcomes
        if r.2 then
          if env.confirmed then
            (RecordEvent.attempted r.1 true true,
              ⟨save_successful_deposit st.disk pk, st.processed_count + 1⟩)
          else (RecordEvent.attempted r.1 true false, st)
        else (RecordEvent.attempted r.1 false false, st)

/-- Outcome of the whole batch loop: the per-record event trace, the final
state, and whether the process died on an uncaught exception. -/
structure RunResult where
  events : List RecordEvent
  final : BatchState
  aborted : Bool
deriving DecidableEq

/-- The batch driver: folds `stepRecord` over the input records, stopping
on `halt` (the `break`) and on `abortKeyError` (the uncaught exception).
The loaded `successful_deposits` set and `maxValidators`
(= `balance // required_balance`, computed once before the loop, lines
158-160) stay fixed throughout. -/
def runBatch (successful_deposits : Finset String) (maxValidators : Nat) :
    BatchState → List (DepositEntry × RecordEnv) → RunResult
  | st, [] => ⟨[], st, false⟩
  | st, (e, env) :: rest =>
    let r := stepRecord successful_deposits maxValidators st e env
    if r.1 = RecordEvent.abortKeyError then ⟨[r.1], r.2, true⟩
    else if r.1 = RecordEvent.halt then ⟨[r.1], r.2, false⟩
    else
      let rr := runBatch successful_deposits maxValidators r.2 rest
      ⟨r.1 :: rr.events, rr.final, rr.aborted⟩

/-- `max_validators` as computed at deposit.py lines 158-160:
`balance // Web3.to_wei(32, "ether")`, computed once at batch start. -/
def max_validators (balance : Nat) : Nat := balance / (32 * 10 ^ 18)

/-- The list comprehension `[entry["pubkey"] for entry in deposit_data[:10]]`
applied to a record list: `none` models the uncaught `KeyError` raised when
some record lacks the field. -/
def pubkeysOf : List DepositEntry → Option (List String)
  | [] => some []
  | e :: rest =>
    match e.pubkey, pubkeysOf rest with
    | some pk, some pks => some (pk :: pks)
    | _, _ => none

/-- Embedding of populate_successful.py's top level (lines 51-55): take the
pubkeys of the first 10 records and save them; `none` models the uncaught
`KeyError` when one of those records lacks a pubkey. The script consults
nothing on-chain: its only inputs are the ledger file and the record list. -/
def populate_main (disk : DiskState) (deposit_data : List DepositEntry) :
    Option DiskState :=
  match pubkeysOf (deposit_data.take 10) with
  | none => none
  | some pks => some (save_successful_deposits disk pks)

example : validate_deposit_data ⟨some "aa", some "bb", some "cc", some "dd"⟩ = true := by decide
example : validate_deposit_data ⟨none, some "bb", some "cc", some "dd"⟩ = false := by decide
example : validate_deposit_data ⟨some "aa", some "zz", some "cc", some "dd"⟩ = false := by decide
example : validate_deposit_data ⟨some "aa", some "b", some "cc", some "dd"⟩ = false := by decide
example : get_gas_price (Except.error ()) = 50 * 10 ^ 9 := by decide
example : get_gas_price (Except.ok ⟨[10 * 10 ^ 9], [[2 * 10 ^ 9]]⟩) = 12 * 10 ^ 9 := by decide
example : send_transaction 3 100 [false, false, true] = ([100, 150, 225], true) := by decide
example : send_transaction 3 100 [false, false, false] = ([100, 150, 225], false) := by decide

example :
    stepRecord {"aa"} 5 ⟨DiskState.absent, 0⟩ ⟨some "aa", none, none, none⟩
      ⟨Except.error (), none, [], false⟩ =
    (RecordEvent.skipAlreadyDone, ⟨DiskState.absent, 0⟩) := by decide

example :
    runBatch ∅ 5 ⟨DiskState.absent, 0⟩
      [(⟨none, some "aa", some "bb", some "cc"⟩, ⟨Except.error (), some 1, [true], true⟩),
       (⟨some "dd", some "ee", some "ff", some root32⟩, ⟨Except.error (), some 1, [true], true⟩)] =
    ⟨[RecordEvent.abortKeyError], ⟨DiskState.absent, 0⟩, true⟩ := by decide

example :
    runBatch ∅ 1 ⟨DiskState.absent, 0⟩
      [(⟨some "dd", some "ee", some "ff", some root32⟩, ⟨Except.error (), some 1, [true], true⟩),
       (⟨some "aa", some "ee", some "ff", some root32⟩, ⟨Except.error (), some 1, [true], true⟩)] =
    ⟨[RecordEvent.attempted [gwei 50] true true, RecordEvent.halt],
      ⟨DiskState.wellFormed {"dd"}, 1⟩, false⟩ := by decide

example :
    stepRecord ∅ 1 ⟨DiskState.absent, 0⟩ ⟨some "dd", some "ee", some "ff", some "ab"⟩
      ⟨Except.error (), some 1, [true], true⟩ =
    (RecordEvent.skipEncodeError, ⟨DiskState.absent, 0⟩) := by decide

example : rootIsBytes32 (some root32) = true := by decide
example : rootIsBytes32 (some "ab") = false := by decide

example :
    populate_main (DiskState.wellFormed {"zz"})
      [⟨some "aa", none, none, none⟩, ⟨some "bb", none, none, none⟩] =
    some (DiskState.wellFormed ({"zz"} ∪ {"aa", "bb"})) := by decide

lemma le_escalateFee (fee : Nat) : fee ≤ escalateFee fee := by
  unfold escalateFee
  rw [Nat.le_div_iff_mul_le (by norm_num)]
  omega

lemma send_transaction_head (n fee : Nat) (outs : List Bool) (h : n ≠ 0) :
    (send_transaction n fee outs).1.head? = some fee := by
  cases n with
  | zero => exact absurd rfl h
  | succ m =>
    unfold send_transaction
    split_ifs <;> rfl

/-- C6 (confirmed): within the retry loop of `send_transaction` for a single
record, the sequence of `maxFeePerGas` values across the successive send
attempts is monotonically non-decreasing: each later attempt's fee is the
previous one escalated by `int(fee * 1.5)`, which never decreases. -/
theorem fee_escalation_monotone (maxRetries fee : Nat) (outs : List Bool) :
    List.Chain' (· ≤ ·) (send_transaction maxRetries fee outs).1 := by
  induction maxRetries generalizing fee outs with
  | zero => simp [send_transaction]
  | succ m ih =>
    unfold send_transaction
    split_ifs with h1 h2
    · simp
    · simp
    · rw [List.chain'_cons']
      refine ⟨?_, ih (escalateFee fee) outs.tail⟩
      intro b hb
      rw [send_transaction_head m (escalateFee fee) outs.tail h2] at hb
      simp only [Option.mem_def, Option.some.injEq] at hb
      exact hb ▸ le_escalateFee fee

/-- C8 (confirmed): the fee estimator never propagates an error to its
caller. `get_gas_price` is a total function of the upstream outcome; on a
raised upstream `eth_feeHistory` error it returns the fixed conservative
fallback of 50 gwei, and even when the call succeeds but yields no base
fee entry (so that the indexing inside the `try` block raises), the same
handler returns the same fallback. -/
theorem estimator_fallback_total :
    (∀ u : Unit, get_gas_price (Except.error u) = gwei 50) ∧
    (∀ fh : FeeHistory, fh.baseFeePerGas = [] →
      get_gas_price (Except.ok fh) = gwei 50) := by
  constructor
  · intro u; rfl
  · intro fh h
    simp [get_gas_price, h]

theorem estimator_fallback_total_witness :
    get_gas_price (Except.error ()) = gwei 50 ∧
    get_gas_price (Except.ok ⟨[], [[gwei 2]]⟩) = gwei 50 :=
  ⟨estimator_fallback_total.1 (), estimator_fallback_total.2 ⟨[], [[gwei 2]]⟩ rfl⟩

/-- C7 (counterexample): the claim that the estimator's quote satisfies
`maxFee >= baseFee` of the block the transaction will be included in is
false. With observed history (latest base fee 10 gwei, median priority
2 gwei) the quote is 12 gwei, yet 13 gwei is a possible base fee for the
inclusion block (base fees move by up to 12.5% per block and inclusion is
not bounded to the next block); likewise the fallback quote is the fixed
50 gwei, below a possible 51 gwei inclusion base fee. -/
theorem fee_quote_below_inclusion_base :
    get_gas_price (Except.ok ⟨[gwei 10], [[gwei 2]]⟩) = gwei 12 ∧
    gwei 12 < gwei 13 ∧
    get_gas_price (Except.error ()) = gwei 50 ∧
    gwei 50 < gwei 51 := by decide

/-- C7 (amended): on the signal path the quote does dominate the base fee
of the newest *observed* block — `maxFee = latestBaseFee + priority` with a
non-negative priority component — but no bound relative to the future
inclusion block holds, and the fallback path carries no base-fee
relation at all. -/
theorem fee_quote_covers_latest_base (fh : FeeHistory) (base : Nat)
    (h : fh.baseFeePerGas.getLast? = some base) :
    base ≤ get_gas_price (Except.ok fh) := by
  simp only [get_gas_price, h]
  exact Nat.le_add_right _ _

theorem fee_quote_covers_latest_base_witness :
    gwei 10 ≤ get_gas_price (Except.ok ⟨[gwei 10], [[gwei 2]]⟩) :=
  fee_quote_covers_latest_base ⟨[gwei 10], [[gwei 2]]⟩ (gwei 10) rfl

/-- C2 (counterexample): the persist operation is not atomic. The write in
`save_successful_deposit` is `open(file, "w")` followed by `json.dump`:
opening with mode "w" truncates the existing file in place before the new
content is written, so the write passes through the `interrupted` state. A
crash there leaves a file from which the fail-soft loader recovers nothing:
with "aa" previously recorded, the mid-write state no longer contains
"aa" — refuting "a crash mid-write cannot corrupt or truncate the existing
set". There is no write-temp-then-rename step anywhere in the source. -/
theorem save_truncation_window :
    "aa" ∈ load_successful_deposits (DiskState.wellFormed {"aa"}) ∧
    DiskState.interrupted ∈ saveDiskStates (DiskState.wellFormed {"aa"}) "bb" ∧
    load_successful_deposits DiskState.interrupted = ∅ := by decide

/-- C2 (amended): each persist reads the currently persisted set, unions it
with the new identities, and rewrites the file with the union, so a
*completed* persist never removes a previously recorded identity — but the
write is an in-place truncate-then-rewrite, not write-temp-then-rename, so
atomicity against a crash mid-write does not hold (see the
counterexample). -/
theorem ledger_persist_union (disk : DiskState) (pk : String) (pks : List String) :
    load_successful_deposits (save_successful_deposit disk pk) =
      insert pk (load_successful_deposits disk) ∧
    load_successful_deposits disk ⊆
      load_successful_deposits (save_successful_deposit disk pk) ∧
    load_successful_deposits (save_successful_deposits disk pks) =
      load_successful_deposits disk ∪ pks.toFinset ∧
    load_successful_deposits disk ⊆
      load_successful_deposits (save_successful_deposits disk pks) ∧
    (saveDiskStates disk pk).getLast? = some (save_successful_deposit disk pk) := by
  refine ⟨rfl, ?_, rfl, ?_, rfl⟩
  · exact Finset.subset_insert _ _
  · exact Finset.subset_union_left

lemma pubkeysOf_length :
    ∀ (l : List DepositEntry) (pks : List String),
      pubkeysOf l = some pks → pks.length = l.length := by
  intro l
  induction l with
  | nil =>
    intro pks h
    simp [pubkeysOf] at h
    simp [← h]
  | cons e rest ih =>
    intro pks h
    unfold pubkeysOf at h
    cases hpk : e.pubkey with
    | none => rw [hpk] at h; simp at h
    | some pk =>
      rw [hpk] at h
      cases hr : pubkeysOf rest with
      | none => rw [hr] at h; simp at h
      | some pks0 =>
        rw [hr] at h
        simp only [Option.some.injEq] at h
        subst h
        simp [ih pks0 hr]

/-- C10 (confirmed): the backfill script marks records as successful with no
on-chain check of any kind — `populate_main` takes only the ledger file and
the input list. Whenever the first `min(10, length)` records all carry a
pubkey, running it persists exactly the union of the existing set with
those pubkeys, so an identity enters the Ledger without any confirmed
on-chain deposit having occurred. -/
theorem backfill_marks_first_ten (disk : DiskState) (dd : List DepositEntry)
    (pks : List String) (h : pubkeysOf (dd.take 10) = some pks) :
    populate_main disk dd =
      some (DiskState.wellFormed (load_successful_deposits disk ∪ pks.toFinset)) ∧
    pks.length = min 10 dd.length := by
  constructor
  · simp [populate_main, h, save_successful_deposits]
  · have hl := pubkeysOf_length _ _ h
    simpa [List.length_take] using hl

theorem backfill_marks_first_ten_witness :
    populate_main (DiskState.wellFormed {"zz"}) [⟨some "aa", none, none, none⟩] =
      some (DiskState.wellFormed
        (load_successful_deposits (DiskState.wellFormed {"zz"}) ∪
          (["aa"] : List String).toFinset)) ∧
    (["aa"] : List String).length = min 10 [(⟨some "aa", none, none, none⟩ : DepositEntry)].length :=
  backfill_marks_first_ten (DiskState.wellFormed {"zz"})
    [⟨some "aa", none, none, none⟩] ["aa"] rfl

lemma stepRecord_skipAlreadyDone (s : Finset String) (maxv : Nat)
    (st : BatchState) (e : DepositEntry) (env : RecordEnv) (pk : String)
    (hpk : e.pubkey = some pk) (hmem : pk ∈ s) :
    stepRecord s maxv st e env = (RecordEvent.skipAlreadyDone, st) := by
  unfold stepRecord
  rw [hpk]
  simp [hmem]

lemma stepRecord_halt (s : Finset String) (maxv : Nat) (st : BatchState)
    (e : DepositEntry) (env : RecordEnv) (pk : String)
    (hpk : e.pubkey = some pk) (hmem : pk ∉ s)
    (hcap : maxv ≤ st.processed_count) :
    stepRecord s maxv st e env = (RecordEvent.halt, st) := by
  unfold stepRecord
  rw [hpk]
  simp [hmem, hcap]

lemma stepRecord_skipInvalid (s : Finset String) (maxv : Nat) (st : BatchState)
    (e : DepositEntry) (env : RecordEnv) (pk : String)
    (hpk : e.pubkey = some pk) (hmem : pk ∉ s)
    (hcap : st.processed_count < maxv)
    (hval : validate_deposit_data e = false) :
    stepRecord s maxv st e env = (RecordEvent.skipInvalid, st) := by
  unfold stepRecord
  rw [hpk]
  simp [hmem, not_le.mpr hcap, hval]

lemma stepRecord_skipEncodeError (s : Finset String) (maxv : Nat)
    (st : BatchState) (e : DepositEntry) (env : RecordEnv) (pk : String)
    (hpk : e.pubkey = some pk) (hmem : pk ∉ s)
    (hcap : st.processed_count < maxv)
    (hval : validate_deposit_data e = true)
    (hroot : rootIsBytes32 e.deposit_data_root = false) :
    stepRecord s maxv st e env = (RecordEvent.skipEncodeError, st) := by
  unfold stepRecord
  rw [hpk]
  simp [hmem, not_le.mpr hcap, hval, hroot]

lemma stepRecord_skipGasEstimation (s : Finset String) (maxv : Nat)
    (st : BatchState) (e : DepositEntry) (env : RecordEnv) (pk : String)
    (hpk : e.pubkey = some pk) (hmem : pk ∉ s)
    (hcap : st.processed_count < maxv)
    (hval : validate_deposit_data e = true)
    (hroot : rootIsBytes32 e.deposit_data_root = true)
    (hgas : env.estimated_gas = none) :
    stepRecord s maxv st e env = (RecordEvent.skipGasEstimation, st) := by
  unfold stepRecord
  rw [hpk]
  simp [hmem, not_le.mpr hcap, hval, hroot, hgas]

lemma runBatch_cons_continue (s : Finset String) (maxv : Nat)
    (st st' : BatchState) (e : DepositEntry) (env : RecordEnv)
    (rest : List (DepositEntry × RecordEnv)) (ev : RecordEvent)
    (h : stepRecord s maxv st e env = (ev, st'))
    (h1 : ev ≠ RecordEvent.abortKeyError) (h2 : ev ≠ RecordEvent.halt) :
    runBatch s maxv st ((e, env) :: rest) =
      ⟨ev :: (runBatch s maxv st' rest).events,
        (runBatch s maxv st' rest).final,
        (runBatch s maxv st' rest).aborted⟩ := by
  simp only [runBatch]
  rw [h]
  simp [h1, h2]

lemma stepRecord_processed_le (s : Finset String) (maxv : Nat)
    (st : BatchState) (e : DepositEntry) (env : RecordEnv)
    (h : st.processed_count ≤ maxv) :
    (stepRecord s maxv st e env).2.processed_count ≤ maxv := by
  unfold stepRecord
  cases hpk : e.pubkey with
  | none => simpa using h
  | some pk =>
    by_cases hmem : pk ∈ s
    · simpa [hmem] using h
    · by_cases hcap : maxv ≤ st.processed_count
      · simpa [hmem, hcap] using h
      · by_cases hval : validate_deposit_data e = false
        · simpa [hmem, hcap, hval] using h
        · by_cases hroot : rootIsBytes32 e.deposit_data_root = false
          · simpa [hmem, hcap, hval, hroot] using h
          · cases hg : env.estimated_gas with
            | none => simpa [hmem, hcap, hval, hroot, hg] using h
            | some g =>
              by_cases hsend :
                  (send_transaction 3 (get_gas_price env.feeHistory) env.sendOutcomes).2 = true
              · by_cases hconf : env.confirmed = true
                · simp only [hmem, hcap, hval, hroot, hg, hsend, hconf, if_true, if_false,
                    ite_true, ite_false, eq_self_iff_true, not_false_iff]
                  show st.processed_count + 1 ≤ maxv
                  omega
                · simpa [hmem, hcap, hval, hroot, hg, hsend, hconf] using h
              · simpa [hmem, hcap, hval, hroot, hg, hsend] using h

lemma stepRecord_attempted_lt (s : Finset String) (maxv : Nat)
    (st st' : BatchState) (e : DepositEntry) (env : RecordEnv)
    (fees : List Nat) (sOk cOk : Bool)
    (h : stepRecord s maxv st e env = (RecordEvent.attempted fees sOk cOk, st')) :
    st.processed_count < maxv := by
  by_cases hcap : st.processed_count < maxv
  · exact hcap
  · exfalso
    unfold stepRecord at h
    cases hpk : e.pubkey with
    | none => rw [hpk] at h; simp at h
    | some pk =>
      rw [hpk] at h
      by_cases hmem : pk ∈ s
      · simp [hmem] at h
      · simp [hmem, not_lt.mp hcap] at h

lemma runBatch_processed_le (s : Finset String) (maxv : Nat) :
    ∀ (rs : List (DepositEntry × RecordEnv)) (st : BatchState),
      st.processed_count ≤ maxv →
      (runBatch s maxv st rs).final.processed_count ≤ maxv := by
  intro rs
  induction rs with
  | nil =>
    intro st h
    simpa [runBatch] using h
  | cons p rest ih =>
    intro st h
    obtain ⟨e, env⟩ := p
    simp only [runBatch]
    split_ifs with h1 h2
    · exact stepRecord_processed_le s maxv st e env h
    · exact stepRecord_processed_le s maxv st e env h
    · exact ih _ (stepRecord_processed_le s maxv st e env h)

/-- C1 (confirmed): a record whose pubkey is already in the loaded Ledger
set is skipped as already-done. The step result is `skipAlreadyDone` with
the state untouched, for every possible chain environment — so neither fee
estimation, nor gas estimation, nor sending can influence or be influenced
by it — the event is not a submission attempt, and the driver records the
skip and proceeds over the remaining records from an unchanged state. -/
theorem alreadyDone_skip_no_submission (s : Finset String) (maxv : Nat)
    (st : BatchState) (e : DepositEntry)
    (rest : List (DepositEntry × RecordEnv)) (pk : String)
    (hpk : e.pubkey = some pk) (hmem : pk ∈ s) :
    (∀ env : RecordEnv,
      stepRecord s maxv st e env = (RecordEvent.skipAlreadyDone, st)) ∧
    (∀ env : RecordEnv,
      (stepRecord s maxv st e env).1.isSubmission = false) ∧
    (∀ env : RecordEnv, runBatch s maxv st ((e, env) :: rest) =
      ⟨RecordEvent.skipAlreadyDone :: (runBatch s maxv st rest).events,
        (runBatch s maxv st rest).final, (runBatch s maxv st rest).aborted⟩) := by
  have hstep : ∀ env, stepRecord s maxv st e env = (RecordEvent.skipAlreadyDone, st) :=
    fun env => stepRecord_skipAlreadyDone s maxv st e env pk hpk hmem
  refine ⟨hstep, fun env => by rw [hstep env]; rfl, fun env => ?_⟩
  exact runBatch_cons_continue s maxv st st e env rest RecordEvent.skipAlreadyDone
    (hstep env) (by decide) (by decide)

theorem alreadyDone_skip_no_submission_witness :
    stepRecord {"aa"} 5 ⟨DiskState.absent, 0⟩ ⟨some "aa", none, none, none⟩
        ⟨Except.error (), some 1, [true], true⟩ =
      (RecordEvent.skipAlreadyDone, ⟨DiskState.absent, 0⟩) ∧
    (stepRecord {"aa"} 5 ⟨DiskState.absent, 0⟩ ⟨some "aa", none, none, none⟩
        ⟨Except.error (), some 1, [true], true⟩).1.isSubmission = false ∧
    runBatch {"aa"} 5 ⟨DiskState.absent, 0⟩
        [(⟨some "aa", none, none, none⟩, ⟨Except.error (), some 1, [true], true⟩)] =
      ⟨[RecordEvent.skipAlreadyDone], ⟨DiskState.absent, 0⟩, false⟩ := by
  have h := alreadyDone_skip_no_submission {"aa"} 5 ⟨DiskState.absent, 0⟩
    ⟨some "aa", none, none, none⟩ [] "aa" rfl (Finset.mem_singleton_self "aa")
  exact ⟨h.1 _, h.2.1 _, h.2.2 _⟩

/-- C3 (code-bug evidence): the ledger-membership check
`entry["pubkey"] in successful_deposits` at deposit.py line 171 runs
before validation and outside every try block, so a record with no pubkey
field raises an uncaught KeyError and kills the whole run. With a
two-record input whose first record lacks a pubkey, the batch aborts after
a single event and the second, well-formed record is never processed —
although `validate_deposit_data` was written to reject exactly such a
record gracefully (second conjunct), which the loop never reaches. -/
theorem missing_pubkey_aborts_batch :
    runBatch ∅ 5 ⟨DiskState.absent, 0⟩
      [(⟨none, some "aa", some "bb", some "cc"⟩,
          ⟨Except.error (), some 1, [true], true⟩),
       (⟨some "dd", some "ee", some "ff", some root32⟩,
          ⟨Except.error (), some 1, [true], true⟩)] =
      ⟨[RecordEvent.abortKeyError], ⟨DiskState.absent, 0⟩, true⟩ ∧
    validate_deposit_data ⟨none, some "aa", some "bb", some "cc"⟩ = false := by decide

/-- C4 (confirmed): capacity is `balance // 32 ETH`, derived once
(`max_validators`) and fixed for the whole run. Starting from
`processed_count = 0` the final count never exceeds it (at most that many
records are confirmed); a submission attempt is only ever issued from a
state with `processed_count < max_validators balance`; and once the count
has reached the capacity, the first record that is not already done makes
the driver halt with a single `halt` event — the batch stops iterating
rather than skipping records one by one. -/
theorem capacity_halt (balance : Nat) (s : Finset String) :
    max_validators balance = balance / (32 * 10 ^ 18) ∧
    (∀ (d : DiskState) (rs : List (DepositEntry × RecordEnv)),
      (runBatch s (max_validators balance) ⟨d, 0⟩ rs).final.processed_count ≤
        max_validators balance) ∧
    (∀ (st st' : BatchState) (e : DepositEntry) (env : RecordEnv)
        (fees : List Nat) (sOk cOk : Bool),
      stepRecord s (max_validators balance) st e env =
          (RecordEvent.attempted fees sOk cOk, st') →
      st.processed_count < max_validators balance) ∧
    (∀ (st : BatchState) (e : DepositEntry) (env : RecordEnv)
        (rest : List (DepositEntry × RecordEnv)) (pk : String),
      e.pubkey = some pk → pk ∉ s →
      max_validators balance ≤ st.processed_count →
      runBatch s (max_validators balance) st ((e, env) :: rest) =
        ⟨[RecordEvent.halt], st, false⟩) := by
  refine ⟨rfl, ?_, ?_, ?_⟩
  · intro d rs
    exact runBatch_processed_le s _ rs ⟨d, 0⟩ (Nat.zero_le _)
  · intro st st' e env fees sOk cOk h
    exact stepRecord_attempted_lt s _ st st' e env fees sOk cOk h
  · intro st e env rest pk hpk hmem hcap
    have hstep := stepRecord_halt s _ st e env pk hpk hmem hcap
    simp only [runBatch]
    rw [hstep]
    simp

theorem capacity_halt_witness :
    max_validators (64 * 10 ^ 18) = 64 * 10 ^ 18 / (32 * 10 ^ 18) ∧
    (runBatch ∅ (max_validators (64 * 10 ^ 18))
        ⟨DiskState.absent, 0⟩ []).final.processed_count ≤
      max_validators (64 * 10 ^ 18) ∧
    (⟨DiskState.absent, 0⟩ : BatchState).processed_count <
      max_validators (64 * 10 ^ 18) ∧
    runBatch ∅ (max_validators (64 * 10 ^ 18)) ⟨DiskState.absent, 2⟩
        [(⟨some "dd", some "ee", some "ff", some root32⟩,
            ⟨Except.error (), some 1, [true], true⟩)] =
      ⟨[RecordEvent.halt], ⟨DiskState.absent, 2⟩, false⟩ := by
  have h := capacity_halt (64 * 10 ^ 18) ∅
  refine ⟨h.1, h.2.1 DiskState.absent [], ?_,
    h.2.2.2 ⟨DiskState.absent, 2⟩ ⟨some "dd", some "ee", some "ff", some root32⟩
      ⟨Except.error (), some 1, [true], true⟩ [] "dd" rfl (by decide) (by decide)⟩
  exact h.2.2.1 ⟨DiskState.absent, 0⟩ ⟨DiskState.wellFormed {"dd"}, 1⟩
    ⟨some "dd", some "ee", some "ff", some root32⟩
    ⟨Except.error (), some 1, [true], true⟩ [gwei 50] true true (by decide)

/-- C5 (counterexample): structural validation does not enforce fixed
lengths for the three dynamic `bytes` fields. A record with the one-byte
hex strings "aa", "bb", "cc" as pubkey, withdrawal credentials and
signature (a real pubkey is 48 bytes, i.e. 96 hex characters) and a
well-formed 32-byte root passes `validate_deposit_data`, survives the
strict ABI encoder (which checks only the `bytes32` root), and reaches
submission — the step issues a submission attempt for it — refuting
"a record reaches submission only if all four fields are present and are
valid fixed-length hex". -/
theorem short_pubkey_reaches_submission :
    validate_deposit_data ⟨some "aa", some "bb", some "cc", some root32⟩ = true ∧
    String.length "aa" ≠ 96 ∧
    (stepRecord ∅ 1 ⟨DiskState.absent, 0⟩
      ⟨some "aa", some "bb", some "cc", some root32⟩
      ⟨Except.error (), some 1, [true], true⟩).1.isSubmission = true := by decide

/-- C5 (amended): for a record whose pubkey field is present (one missing
its pubkey aborts the whole run instead, see `missing_pubkey_aborts_batch`)
and which is neither already done nor over capacity: a submission attempt
is issued only if `validate_deposit_data` passed — which requires exactly
that all four fields be present and decode as hex — and the decoded
`deposit_data_root` is exactly 32 bytes, a length check applied not by the
validator but by the strict ABI encoder; the lengths of the pubkey,
withdrawal-credentials and signature fields are not enforced anywhere. A
record failing validation is skipped as invalid, and one passing
validation with a wrong-length root is skipped when `encode` raises into
the per-record handler; in both cases the batch state is untouched and
the driver continues over the remaining records. -/
theorem validation_gate (s : Finset String) (maxv : Nat) (st : BatchState)
    (e : DepositEntry) (pk : String)
    (hpk : e.pubkey = some pk) (hmem : pk ∉ s)
    (hcap : st.processed_count < maxv) :
    (validate_deposit_data e = true ↔
      (fieldIsValidHex e.pubkey = true ∧
        fieldIsValidHex e.withdrawal_credentials = true ∧
        fieldIsValidHex e.signature = true ∧
        fieldIsValidHex e.deposit_data_root = true)) ∧
    (∀ (env : RecordEnv) (fees : List Nat) (sOk cOk : Bool) (st' : BatchState),
      stepRecord s maxv st e env = (RecordEvent.attempted fees sOk cOk, st') →
      validate_deposit_data e = true ∧ rootIsBytes32 e.deposit_data_root = true) ∧
    (validate_deposit_data e = false →
      ∀ (env : RecordEnv) (rest : List (DepositEntry × RecordEnv)),
        stepRecord s maxv st e env = (RecordEvent.skipInvalid, st) ∧
        runBatch s maxv st ((e, env) :: rest) =
          ⟨RecordEvent.skipInvalid :: (runBatch s maxv st rest).events,
            (runBatch s maxv st rest).final,
            (runBatch s maxv st rest).aborted⟩) ∧
    (validate_deposit_data e = true →
      rootIsBytes32 e.deposit_data_root = false →
      ∀ (env : RecordEnv) (rest : List (DepositEntry × RecordEnv)),
        stepRecord s maxv st e env = (RecordEvent.skipEncodeError, st) ∧
        runBatch s maxv st ((e, env) :: rest) =
          ⟨RecordEvent.skipEncodeError :: (runBatch s maxv st rest).events,
            (runBatch s maxv st rest).final,
            (runBatch s maxv st rest).aborted⟩) := by
  refine ⟨?_, ?_, ?_, ?_⟩
  · simp [validate_deposit_data, Bool.and_eq_true, and_assoc]
  · intro env fees sOk cOk st' h
    by_cases hval : validate_deposit_data e = true
    · by_cases hroot : rootIsBytes32 e.deposit_data_root = true
      · exact ⟨hval, hroot⟩
      · exfalso
        have hr : rootIsBytes32 e.deposit_data_root = false := by simpa using hroot
        rw [stepRecord_skipEncodeError s maxv st e env pk hpk hmem hcap hval hr] at h
        simp at h
    · exfalso
      have hv : validate_deposit_data e = false := by simpa using hval
      rw [stepRecord_skipInvalid s maxv st e env pk hpk hmem hcap hv] at h
      simp at h
  · intro hval env rest
    have hstep := stepRecord_skipInvalid s maxv st e env pk hpk hmem hcap hval
    exact ⟨hstep, runBatch_cons_continue s maxv st st e env rest
      RecordEvent.skipInvalid hstep (by decide) (by decide)⟩
  · intro hval hroot env rest
    have hstep := stepRecord_skipEncodeError s maxv st e env pk hpk hmem hcap hval hroot
    exact ⟨hstep, runBatch_cons_continue s maxv st st e env rest
      RecordEvent.skipEncodeError hstep (by decide) (by decide)⟩

theorem validation_gate_witness :
    (validate_deposit_data ⟨some "aa", none, none, none⟩ = true ↔
      (fieldIsValidHex (some "aa") = true ∧ fieldIsValidHex none = true ∧
        fieldIsValidHex none = true ∧ fieldIsValidHex none = true)) ∧
    stepRecord ∅ 1 ⟨DiskState.absent, 0⟩ ⟨some "aa", none, none, none⟩
        ⟨Except.error (), some 1, [true], true⟩ =
      (RecordEvent.skipInvalid, ⟨DiskState.absent, 0⟩) ∧
    runBatch ∅ 1 ⟨DiskState.absent, 0⟩
        [(⟨some "aa", none, none, none⟩, ⟨Except.error (), some 1, [true], true⟩)] =
      ⟨[RecordEvent.skipInvalid], ⟨DiskState.absent, 0⟩, false⟩ ∧
    stepRecord ∅ 1 ⟨DiskState.absent, 0⟩ ⟨some "aa", some "bb", some "cc", some "dd"⟩
        ⟨Except.error (), some 1, [true], true⟩ =
      (RecordEvent.skipEncodeError, ⟨DiskState.absent, 0⟩) ∧
    runBatch ∅ 1 ⟨DiskState.absent, 0⟩
        [(⟨some "aa", some "bb", some "cc", some "dd"⟩,
            ⟨Except.error (), some 1, [true], true⟩)] =
      ⟨[RecordEvent.skipEncodeError], ⟨DiskState.absent, 0⟩, false⟩ := by
  have h1 := validation_gate ∅ 1 ⟨DiskState.absent, 0⟩
    ⟨some "aa", none, none, none⟩ "aa" rfl (by decide) (by decide)
  have h2 := validation_gate ∅ 1 ⟨DiskState.absent, 0⟩
    ⟨some "aa", some "bb", some "cc", some "dd"⟩ "aa" rfl (by decide) (by decide)
  have h13 := h1.2.2.1 (by decide) ⟨Except.error (), some 1, [true], true⟩ []
  have h24 := h2.2.2.2 (by decide) (by decide) ⟨Except.error (), some 1, [true], true⟩ []
  exact ⟨h1.1, h13.1, h13.2, h24.1, h24.2⟩

/-- C9 (confirmed): when `estimate_gas` fails for a record that reached the
estimation step (so it passed validation and the ABI encoder's 32-byte
root check, which the source runs before estimating), the record is
abandoned with nothing sent: the step yields `skipGasEstimation` for every
send/confirmation oracle — so `send_transaction`, its retries and its fee
escalation are never consulted, and no transaction (hence no nonce) can be
consumed — the batch state, persisted ledger file and processed count
included, is exactly unchanged, the event is not a submission, and the
driver continues over the remaining records from that unchanged state. -/
theorem estimation_failure_frame (s : Finset String) (maxv : Nat)
    (st : BatchState) (e : DepositEntry) (env : RecordEnv)
    (rest : List (DepositEntry × RecordEnv)) (pk : String)
    (hpk : e.pubkey = some pk) (hmem : pk ∉ s)
    (hcap : st.processed_count < maxv)
    (hval : validate_deposit_data e = true)
    (hroot : rootIsBytes32 e.deposit_data_root = true)
    (hgas : env.estimated_gas = none) :
    (∀ (fh : Except Unit FeeHistory) (outs : List Bool) (conf : Bool),
      stepRecord s maxv st e ⟨fh, none, outs, conf⟩ =
        (RecordEvent.skipGasEstimation, st)) ∧
    stepRecord s maxv st e env = (RecordEvent.skipGasEstimation, st) ∧
    (stepRecord s maxv st e env).1.isSubmission = false ∧
    runBatch s maxv st ((e, env) :: rest) =
      ⟨RecordEvent.skipGasEstimation :: (runBatch s maxv st rest).events,
        (runBatch s maxv st rest).final, (runBatch s maxv st rest).aborted⟩ := by
  have hstep := stepRecord_skipGasEstimation s maxv st e env pk hpk hmem hcap hval hroot hgas
  refine ⟨?_, hstep, by rw [hstep]; rfl, ?_⟩
  · intro fh outs conf
    exact stepRecord_skipGasEstimation s maxv st e ⟨fh, none, outs, conf⟩
      pk hpk hmem hcap hval hroot rfl
  · exact runBatch_cons_continue s maxv st st e env rest
      RecordEvent.skipGasEstimation hstep (by decide) (by decide)

theorem estimation_failure_frame_witness :
    stepRecord ∅ 1 ⟨DiskState.wellFormed {"zz"}, 0⟩
        ⟨some "dd", some "ee", some "ff", some root32⟩
        ⟨Except.error (), none, [true], true⟩ =
      (RecordEvent.skipGasEstimation, ⟨DiskState.wellFormed {"zz"}, 0⟩) ∧
    (stepRecord ∅ 1 ⟨DiskState.wellFormed {"zz"}, 0⟩
        ⟨some "dd", some "ee", some "ff", some root32⟩
        ⟨Except.error (), none, [true], true⟩).1.isSubmission = false ∧
    runBatch ∅ 1 ⟨DiskState.wellFormed {"zz"}, 0⟩
        [(⟨some "dd", some "ee", some "ff", some root32⟩,
            ⟨Except.error (), none, [true], true⟩)] =
      ⟨[RecordEvent.skipGasEstimation], ⟨DiskState.wellFormed {"zz"}, 0⟩, false⟩ := by
  have h := estimation_failure_frame ∅ 1 ⟨DiskState.wellFormed {"zz"}, 0⟩
    ⟨some "dd", some "ee", some "ff", some root32⟩
    ⟨Except.error (), none, [true], true⟩ [] "dd" rfl (by decide) (by decide)
    (by decide) (by decide) rfl
  exact ⟨h.2.1, h.2.2.1, h.2.2.2⟩
